import Mathlib

/-!
# Verification of the Aadhaar data-cleaning pipeline

Shallow embedding of `data_cleaning.py`: state-name canonicalization
(`standardize_state` with its mapping and exclusion tables), exact-row
deduplication, per-column normalization (district title-casing, date
reformatting, pincode zero-padding), stable multi-key sorting, and the
row-bounded output splitter (`split_and_save`).

Missing values (pandas `NaN`/`NaT`) are modelled as `none` of an `Option`
type.  String operations are modelled at the ASCII level, which covers the
data the pipeline handles (state names, districts, digit strings).
-/

namespace DataCleaning

/-! ## Python string primitives (ASCII-level models) -/

/-- Python `str.strip` whitespace: the ASCII characters Python treats as
whitespace are 0x9–0xD, 0x1C–0x1F and 0x20. -/
def isPySpace (c : Char) : Bool :=
  c = ' ' || c = '\t' || c = '\n' || c = '\r' || c = '\x0b' || c = '\x0c' ||
  c = '\x1c' || c = '\x1d' || c = '\x1e' || c = '\x1f'

/-- Python `str.strip()`: remove leading and trailing whitespace. -/
def pyStrip (s : String) : String :=
  String.mk (((s.data.dropWhile isPySpace).reverse.dropWhile isPySpace).reverse)

/-- ASCII lower-casing of one character (Python `str.lower` on ASCII). -/
def pyLowerChar (c : Char) : Char :=
  if 'A' ≤ c ∧ c ≤ 'Z' then Char.ofNat (c.toNat + 32) else c

/-- ASCII upper-casing of one character. -/
def pyUpperChar (c : Char) : Char :=
  if 'a' ≤ c ∧ c ≤ 'z' then Char.ofNat (c.toNat - 32) else c

/-- Python `str.lower()` (ASCII). -/
def pyLower (s : String) : String :=
  String.mk (s.data.map pyLowerChar)

/-- Is `c` an ASCII letter (a cased character in Python's sense, ASCII)? -/
def isAsciiAlpha (c : Char) : Bool :=
  ('A' ≤ c && c ≤ 'Z') || ('a' ≤ c && c ≤ 'z')

/-- Helper for `pyTitle`: the `Bool` argument records whether the previous
character was cased. -/
def pyTitleAux : Bool → List Char → List Char
  | _, [] => []
  | prevCased, c :: rest =>
    if isAsciiAlpha c then
      (if prevCased then pyLowerChar c else pyUpperChar c) :: pyTitleAux true rest
    else
      c :: pyTitleAux false rest

/-- Python `str.title()` (ASCII): upper-case each letter that follows a
non-cased character, lower-case the remaining letters. -/
def pyTitle (s : String) : String :=
  String.mk (pyTitleAux false s.data)

/-- Left-pad a character list with `'0'` to width `w` (no-op when already
at least `w` long). -/
def padLeftZeros (w : Nat) (cs : List Char) : List Char :=
  List.replicate (w - cs.length) '0' ++ cs

/-- Python `str.zfill(width)`: pad on the left with zeros; a leading sign
character stays in front of the inserted zeros; strings of length ≥ `width`
are returned unchanged. -/
def pyZfill (width : Nat) (s : String) : String :=
  match s.data with
  | [] => String.mk (padLeftZeros width [])
  | c :: rest =>
    if c = '-' ∨ c = '+' then String.mk (c :: padLeftZeros (width - 1) rest)
    else String.mk (padLeftZeros width (c :: rest))

/-! ## State-name canonicalization (`STATE_MAPPING`, `INVALID_STATES`,
`standardize_state`) -/

/-- `STATE_MAPPING` from `data_cleaning.py`: lower-cased variants to the
official state name.  A Python dict with distinct literal keys is modelled
as an association list. -/
def STATE_MAPPING : List (String × String) := [
  ("andaman & nicobar islands", "Andaman and Nicobar Islands"),
  ("andaman and nicobar islands", "Andaman and Nicobar Islands"),
  ("andhra pradesh", "Andhra Pradesh"),
  ("arunachal pradesh", "Arunachal Pradesh"),
  ("assam", "Assam"),
  ("bihar", "Bihar"),
  ("chandigarh", "Chandigarh"),
  ("chhattisgarh", "Chhattisgarh"),
  ("chhatisgarh", "Chhattisgarh"),
  ("dadra & nagar haveli", "Dadra and Nagar Haveli and Daman and Diu"),
  ("dadra and nagar haveli", "Dadra and Nagar Haveli and Daman and Diu"),
  ("dadra and nagar haveli and daman and diu", "Dadra and Nagar Haveli and Daman and Diu"),
  ("the dadra and nagar haveli and daman and diu", "Dadra and Nagar Haveli and Daman and Diu"),
  ("daman & diu", "Dadra and Nagar Haveli and Daman and Diu"),
  ("daman and diu", "Dadra and Nagar Haveli and Daman and Diu"),
  ("delhi", "Delhi"),
  ("goa", "Goa"),
  ("gujarat", "Gujarat"),
  ("haryana", "Haryana"),
  ("himachal pradesh", "Himachal Pradesh"),
  ("jammu & kashmir", "Jammu and Kashmir"),
  ("jammu and kashmir", "Jammu and Kashmir"),
  ("jharkhand", "Jharkhand"),
  ("karnataka", "Karnataka"),
  ("kerala", "Kerala"),
  ("ladakh", "Ladakh"),
  ("lakshadweep", "Lakshadweep"),
  ("madhya pradesh", "Madhya Pradesh"),
  ("maharashtra", "Maharashtra"),
  ("manipur", "Manipur"),
  ("meghalaya", "Meghalaya"),
  ("mizoram", "Mizoram"),
  ("nagaland", "Nagaland"),
  ("odisha", "Odisha"),
  ("orissa", "Odisha"),
  ("puducherry", "Puducherry"),
  ("pondicherry", "Puducherry"),
  ("punjab", "Punjab"),
  ("rajasthan", "Rajasthan"),
  ("sikkim", "Sikkim"),
  ("tamil nadu", "Tamil Nadu"),
  ("tamilnadu", "Tamil Nadu"),
  ("telangana", "Telangana"),
  ("tripura", "Tripura"),
  ("uttar pradesh", "Uttar Pradesh"),
  ("uttarakhand", "Uttarakhand"),
  ("uttaranchal", "Uttarakhand"),
  ("west bengal", "West Bengal"),
  ("west  bengal", "West Bengal"),
  ("west bangal", "West Bengal"),
  ("west bengli", "West Bengal"),
  ("westbengal", "West Bengal")]

/-- `INVALID_STATES` from `data_cleaning.py` (known garbage values). -/
def INVALID_STATES : List String :=
  ["100000", "balanagar", "nagpur", "jaipur", "madanapalle", "raja annamalai puram"]

/-- The 36 official state names: the distinct values of `STATE_MAPPING`. -/
def OFFICIAL_STATES : List String := [
  "Andaman and Nicobar Islands", "Andhra Pradesh", "Arunachal Pradesh",
  "Assam", "Bihar", "Chandigarh", "Chhattisgarh",
  "Dadra and Nagar Haveli and Daman and Diu", "Delhi", "Goa", "Gujarat",
  "Haryana", "Himachal Pradesh", "Jammu and Kashmir", "Jharkhand",
  "Karnataka", "Kerala", "Ladakh", "Lakshadweep", "Madhya Pradesh",
  "Maharashtra", "Manipur", "Meghalaya", "Mizoram", "Nagaland", "Odisha",
  "Puducherry", "Punjab", "Rajasthan", "Sikkim", "Tamil Nadu", "Telangana",
  "Tripura", "Uttar Pradesh", "Uttarakhand", "West Bengal"]

/-- `standardize_state` from `data_cleaning.py`.  A missing value
(`pd.isna`) is modelled as `none`; on an actual string, `str(...)` is the
identity.  The Python dict lookups become list membership / association
lookup. -/
def standardize_state (state_value : Option String) : String :=
  match state_value with
  | none => "INVALID"
  | some s =>
    let state_lower := pyLower (pyStrip s)
    if state_lower ∈ INVALID_STATES then "INVALID"
    else
      match STATE_MAPPING.lookup state_lower with
      | some official => official
      | none => "INVALID"

/-! ## Date parsing (`pd.to_datetime(..., format="%d-%m-%Y",
errors="coerce")` followed by `.dt.strftime("%Y-%m-%d")`) -/

/-- Value of a digit string (already checked to consist of digits). -/
def digitsToNat (cs : List Char) : Nat :=
  cs.foldl (fun acc c => acc * 10 + (c.toNat - 48)) 0

/-- Gregorian leap-year rule (as used by `datetime`). -/
def isLeapYear (y : Nat) : Bool :=
  (y % 4 == 0 && y % 100 != 0) || y % 400 == 0

/-- Number of days in month `m` of year `y`. -/
def daysInMonth (y m : Nat) : Nat :=
  if m = 2 then (if isLeapYear y then 29 else 28)
  else if m = 4 ∨ m = 6 ∨ m = 9 ∨ m = 11 then 30 else 31

/-- `pandas.Timestamp` can only represent datetimes between
1677-09-21T00:12 and 2262-04-11T23:47; a midnight date outside
[1677-09-22, 2262-04-11] overflows and is coerced to `NaT`. -/
def inTimestampBounds (y m d : Nat) : Bool :=
  (decide (1678 ≤ y) ||
     (decide (y = 1677) && (decide (10 ≤ m) || (decide (m = 9) && decide (22 ≤ d))))) &&
  (decide (y ≤ 2261) ||
     (decide (y = 2262) && (decide (m ≤ 3) || (decide (m = 4) && decide (d ≤ 11)))))

/-- Split a character list at every `'-'` (the semantics of
`str.split("-")` / `s.splitOn "-"` for the one-character separator). -/
def splitDash : List Char → List (List Char)
  | [] => [[]]
  | c :: rest =>
    if c = '-' then [] :: splitDash rest
    else
      match splitDash rest with
      | [] => [[c]]
      | g :: gs => (c :: g) :: gs

/-- The `strptime` pattern for `%d`, as pandas' `array_strptime` inherits
it from CPython (`3[0-1]|[1-2]\d|0[1-9]|[1-9]| [1-9]`): one or two digits,
or a space-padded single nonzero digit such as `" 1"`.  (Out-of-range digit
pairs that the regex alternatives exclude, like `"00"` or `"32"`, are
rejected by the numeric day checks in `parseDate`.) -/
def matchesDay (cs : List Char) : Bool :=
  (decide (1 ≤ cs.length) && decide (cs.length ≤ 2) && cs.all Char.isDigit) ||
  (match cs with
   | [' ', c] => decide ('1' ≤ c) && decide (c ≤ '9')
   | _ => false)

/-- Numeric value of a `%d` field: an optional leading pad space, then
digits. -/
def dayValue (cs : List Char) : Nat :=
  digitsToNat (cs.dropWhile (fun c => c = ' '))

/-- `pd.to_datetime(s, format="%d-%m-%Y", errors="coerce")` on one cell:
the string must be day `-` month `-` year with a `%d` day (1–2 digits or a
space-padded single digit), 1–2 digit month, exactly 4 digit year (the
`strptime` patterns for `%d`, `%m`, `%Y`), denote a valid calendar date,
and fit in the `Timestamp` range; otherwise the result is `NaT`, modelled
as `none`. -/
def parseDate (s : String) : Option (Nat × Nat × Nat) :=
  match splitDash s.data with
  | [ds, ms, ys] =>
    if matchesDay ds ∧
       (1 ≤ ms.length ∧ ms.length ≤ 2 ∧ ms.all Char.isDigit) ∧
       (ys.length = 4 ∧ ys.all Char.isDigit) then
      let d := dayValue ds
      let m := digitsToNat ms
      let y := digitsToNat ys
      if 1 ≤ m ∧ m ≤ 12 ∧ 1 ≤ d ∧ d ≤ daysInMonth y m ∧ inTimestampBounds y m d then
        some (y, m, d)
      else none
    else none
  | _ => none

/-- Zero-pad a month or day number to two digits. -/
def pad2 (n : Nat) : String :=
  if n < 10 then "0" ++ toString n else toString n

/-- `.dt.strftime("%Y-%m-%d")` on a parsed date (years in the `Timestamp`
range always have four digits). -/
def formatDate (y m d : Nat) : String :=
  toString y ++ "-" ++ pad2 m ++ "-" ++ pad2 d

/-! ## Row model -/

/-- One raw input record.  Per the fixed input schema the columns always
include `state` (may be missing), `district`, `date`, `pincode`; the
category-specific numeric counter columns are carried opaquely in
`extra`. -/
structure RawRow where
  date : String
  state : Option String
  district : String
  pincode : String
  extra : List String
deriving DecidableEq

/-- One cleaned record: `state` canonicalized, `district` trimmed and
title-cased, `date` reformatted (`none` is the `NaT`/`NaN` parse-failure
sentinel), `pincode` zero-padded, and the raw state kept in
`state_original`. -/
structure CleanedRow where
  date : Option String
  state : String
  district : String
  pincode : String
  extra : List String
  state_original : Option String
deriving DecidableEq

/-- Rendering of a (possibly missing) cell when the frame is written out:
`NaN` becomes the empty cell. -/
def optCell (o : Option String) : String := o.getD ""

/-- The output column order of a cleaned record: the raw columns in input
order with `state_original` appended last (lines 267 and 298–300 of
`data_cleaning.py`). -/
def CleanedRow.columns (c : CleanedRow) : List String :=
  [c.date.getD "", c.state, c.district, c.pincode] ++ c.extra ++ [optCell c.state_original]

/-! ## Deduplication (`df.drop_duplicates()`) -/

/-- Helper for `dropDuplicates`: keep a row only if it was not seen
before. -/
def dropDupAux (seen : List RawRow) : List RawRow → List RawRow
  | [] => []
  | r :: rest =>
    if r ∈ seen then dropDupAux seen rest
    else r :: dropDupAux (r :: seen) rest

/-- `df.drop_duplicates()`: remove every row equal (on all columns) to an
earlier row, keeping the first occurrence, preserving order. -/
def dropDuplicates (l : List RawRow) : List RawRow :=
  dropDupAux [] l

/-! ## Column normalization (lines 267–281 of `data_cleaning.py`) -/

/-- The per-row effect of the column-wise normalization stage: copy the
raw state into `state_original`, canonicalize `state`, strip and
title-case `district`, reformat `date` (unparseable dates become the
`none` sentinel), and zero-pad `pincode` to 6 characters.  Each source
line transforms one whole column; since every transform is element-wise,
the stage is the row-wise map of this function. -/
def normalizeRow (r : RawRow) : CleanedRow :=
  { date := (parseDate r.date).map (fun ymd => formatDate ymd.1 ymd.2.1 ymd.2.2)
    state := standardize_state r.state
    district := pyTitle (pyStrip r.district)
    pincode := pyZfill 6 r.pincode
    extra := r.extra
    state_original := r.state }

/-- The normalization stage on a whole table. -/
def normStage (l : List RawRow) : List CleanedRow :=
  l.map normalizeRow

/-! ## Stable sorting (lines 288–295 of `data_cleaning.py`) -/

/-- Strict comparison of (possibly missing) date cells:
`sort_values(..., kind="mergesort")` with the default
`na_position="last"` treats `NaN` as greater than every value. -/
def dLT : Option String → Option String → Bool
  | some a, some b => decide (a < b)
  | some _, none => true
  | none, _ => false

/-- The Boolean comparison realized by
`sort_values(by=["date", "state", "district"], ascending=[True, True, True])`:
lexicographic on the composite key, with missing dates last. -/
def rowLE (a b : CleanedRow) : Bool :=
  if a.date = b.date then
    if a.state = b.state then decide (a.district ≤ b.district)
    else decide (a.state < b.state)
  else dLT a.date b.date

/-- The sorting stage: a stable merge sort by the composite key
(`kind="mergesort"`). -/
def sortStage (l : List CleanedRow) : List CleanedRow :=
  l.mergeSort rowLE

/-- Propositional form of the sentinel-last strict date order. -/
def DsLT : Option String → Option String → Prop
  | some a, some b => a < b
  | some _, none => True
  | none, _ => False

/-- Propositional form of the composite-key order: date ascending (missing
dates greatest), then state ascending, then district ascending, all under
lexicographic string comparison. -/
def keyLE (a b : CleanedRow) : Prop :=
  DsLT a.date b.date ∨
    (a.date = b.date ∧
      (a.state < b.state ∨ (a.state = b.state ∧ a.district ≤ b.district)))

/-! ## Row-bounded splitting (`split_and_save`) -/

/-- Excel's maximum rows per sheet (`EXCEL_MAX_ROWS`). -/
def EXCEL_MAX_ROWS : Nat := 1048576

/-- `split_and_save` from `data_cleaning.py`, modelled as the list of row
blocks written out (block at position `i` is the file named
`..._part(i+1).csv`; the reported byte size is not modelled).  The slice
`df.iloc[start_idx:end_idx]` is `(df.drop start_idx).take (end_idx - start_idx)`. -/
def split_and_save (df : List α) (max_rows : Nat) : List (List α) :=
  let total_rows := df.length
  if total_rows ≤ max_rows then [df]
  else
    let num_parts := total_rows / max_rows + (if total_rows % max_rows = 0 then 0 else 1)
    (List.range num_parts).map (fun i =>
      let start_idx := i * max_rows
      let end_idx := min ((i + 1) * max_rows) total_rows
      (df.drop start_idx).take (end_idx - start_idx))

/-! ## The per-category pipeline (`clean_dataset`) -/

/-- Rows of the pipeline after dedup, normalization and sorting
(lines 257–300 of `data_cleaning.py`), before splitting. -/
def cleanRows (raws : List RawRow) : List CleanedRow :=
  sortStage (normStage (dropDuplicates raws))

/-- `clean_dataset` for one category, on the already-read per-file row
lists.  With zero input files, `pd.concat([])` raises
`ValueError("No objects to concatenate")`, modelled as `Except.error`;
otherwise the files are concatenated, cleaned and split. -/
def clean_dataset (files : List (List RawRow)) : Except String (List (List CleanedRow)) :=
  match files with
  | [] => Except.error "No objects to concatenate"
  | _ => Except.ok (split_and_save (cleanRows files.flatten) EXCEL_MAX_ROWS)

/-- The end-to-end example from the spec: three raw rows, two identical
and one distinct, all with raw state `"West  Bengal"` (double space). -/
def wbExample : List RawRow :=
  [⟨"01-01-2020", some "West  Bengal", "Kolkata", "700001", []⟩,
   ⟨"01-01-2020", some "West  Bengal", "Kolkata", "700001", []⟩,
   ⟨"01-01-2020", some "West  Bengal", "Howrah", "711101", []⟩]

/-! ## Lemmas about deduplication -/

theorem dropDupAux_sublist (l : List RawRow) : ∀ seen, (dropDupAux seen l).Sublist l := by
  induction l with
  | nil => intro seen; exact List.Sublist.refl _
  | cons r rest ih =>
    intro seen
    by_cases h : r ∈ seen
    · rw [dropDupAux, if_pos h]; exact (ih seen).cons r
    · rw [dropDupAux, if_neg h]; exact (ih (r :: seen)).cons₂ r

theorem mem_dropDupAux (x : RawRow) (l : List RawRow) :
    ∀ seen, x ∈ dropDupAux seen l ↔ x ∈ l ∧ x ∉ seen := by
  induction l with
  | nil => intro seen; simp [dropDupAux]
  | cons r rest ih =>
    intro seen
    by_cases h : r ∈ seen
    · rw [dropDupAux, if_pos h, ih seen]
      constructor
      · rintro ⟨hx, hs⟩; exact ⟨List.mem_cons_of_mem _ hx, hs⟩
      · rintro ⟨hx, hs⟩
        rcases List.mem_cons.mp hx with rfl | hx
        · exact absurd h hs
        · exact ⟨hx, hs⟩
    · rw [dropDupAux, if_neg h, List.mem_cons, ih (r :: seen)]
      constructor
      · rintro (rfl | ⟨hx, hs⟩)
        · exact ⟨List.mem_cons_self _ _, h⟩
        · exact ⟨List.mem_cons_of_mem _ hx, fun hx2 => hs (List.mem_cons_of_mem _ hx2)⟩
      · rintro ⟨hx, hs⟩
        rcases List.mem_cons.mp hx with rfl | hx
        · exact Or.inl rfl
        · by_cases hxr : x = r
          · exact Or.inl hxr
          · refine Or.inr ⟨hx, fun hmem => ?_⟩
            rcases List.mem_cons.mp hmem with h1 | h2
            · exact hxr h1
            · exact hs h2

theorem dropDupAux_nodup (l : List RawRow) : ∀ seen, (dropDupAux seen l).Nodup := by
  induction l with
  | nil => intro seen; simp [dropDupAux]
  | cons r rest ih =>
    intro seen
    by_cases h : r ∈ seen
    · rw [dropDupAux, if_pos h]; exact ih seen
    · rw [dropDupAux, if_neg h]
      refine List.nodup_cons.mpr ⟨fun hmem => ?_, ih (r :: seen)⟩
      exact ((mem_dropDupAux r rest (r :: seen)).mp hmem).2 (List.mem_cons_self r seen)

theorem dropDupAux_congr (l : List RawRow) :
    ∀ s1 s2, (∀ x ∈ l, x ∈ s1 ↔ x ∈ s2) → dropDupAux s1 l = dropDupAux s2 l := by
  induction l with
  | nil => intros; rfl
  | cons r rest ih =>
    intro s1 s2 h
    have hr := h r (List.mem_cons_self r rest)
    by_cases h1 : r ∈ s1
    · rw [dropDupAux, if_pos h1, dropDupAux, if_pos (hr.mp h1)]
      exact ih s1 s2 (fun x hx => h x (List.mem_cons_of_mem _ hx))
    · have h2 : r ∉ s2 := fun hh => h1 (hr.mpr hh)
      rw [dropDupAux, if_neg h1, dropDupAux, if_neg h2]
      refine congrArg (r :: ·) (ih (r :: s1) (r :: s2) ?_)
      intro x hx
      simp only [List.mem_cons]
      exact or_congr Iff.rfl (h x (List.mem_cons_of_mem _ hx))

theorem dropDupAux_filter (r : RawRow) (l : List RawRow) :
    ∀ seen, r ∈ seen →
      dropDupAux seen l = dropDupAux seen (l.filter (fun x => decide ¬(x = r))) := by
  induction l with
  | nil => intros; rfl
  | cons a rest ih =>
    intro seen hr
    by_cases har : a = r
    · subst har
      rw [List.filter_cons, if_neg (by simp), dropDupAux, if_pos hr]
      exact ih seen hr
    · rw [List.filter_cons, if_pos (by simp [har]), dropDupAux, dropDupAux]
      by_cases hs : a ∈ seen
      · rw [if_pos hs, if_pos hs]
        exact ih seen hr
      · rw [if_neg hs, if_neg hs]
        exact congrArg (a :: ·) (ih (a :: seen) (List.mem_cons_of_mem _ hr))

theorem dropDuplicates_cons_eq (r : RawRow) (rest : List RawRow) :
    dropDuplicates (r :: rest) =
      r :: dropDuplicates (rest.filter (fun x => decide ¬(x = r))) := by
  rw [dropDuplicates, dropDupAux, if_neg (List.not_mem_nil r),
    dropDupAux_filter r rest [r] (List.mem_singleton_self r), dropDuplicates]
  refine congrArg (r :: ·) (dropDupAux_congr _ [r] [] ?_)
  intro x hx
  have hxr : ¬(x = r) := by simpa using List.of_mem_filter hx
  simp [hxr]

theorem dropDupAux_of_nodup (l : List RawRow) :
    ∀ seen, l.Nodup → (∀ x ∈ l, x ∉ seen) → dropDupAux seen l = l := by
  induction l with
  | nil => intros; rfl
  | cons r rest ih =>
    intro seen hnd hdisj
    rw [dropDupAux, if_neg (hdisj r (List.mem_cons_self ..))]
    refine congrArg (r :: ·) (ih (r :: seen) (List.nodup_cons.mp hnd).2 ?_)
    intro x hx
    simp only [List.mem_cons]
    rintro (rfl | hmem)
    · exact (List.nodup_cons.mp hnd).1 hx
    · exact hdisj x (List.mem_cons_of_mem _ hx) hmem

theorem dropDuplicates_nodup (l : List RawRow) : (dropDuplicates l).Nodup :=
  dropDupAux_nodup l []

theorem dropDuplicates_idem (l : List RawRow) :
    dropDuplicates (dropDuplicates l) = dropDuplicates l :=
  dropDupAux_of_nodup _ [] (dropDuplicates_nodup l) (by simp)

theorem dropDuplicates_sublist (l : List RawRow) : (dropDuplicates l).Sublist l :=
  dropDupAux_sublist l []

theorem mem_dropDuplicates (x : RawRow) (l : List RawRow) :
    x ∈ dropDuplicates l ↔ x ∈ l := by
  rw [dropDuplicates, mem_dropDupAux]
  simp

/-! ## Lemmas about the splitter -/

theorem split_and_save_of_le {α : Type u} (df : List α) (m : Nat) (h : df.length ≤ m) :
    split_and_save df m = [df] := by
  simp [split_and_save, h]

theorem split_slice_eq {α : Type u} (df : List α) (m i : Nat) :
    (df.drop (i * m)).take (min ((i + 1) * m) df.length - i * m) =
      (df.drop (i * m)).take m := by
  rw [List.take_eq_take]
  rw [List.length_drop]
  have hsm : (i + 1) * m = i * m + m := Nat.succ_mul i m
  omega

theorem split_and_save_of_lt {α : Type u} (df : List α) (m : Nat) (h : m < df.length) :
    split_and_save df m =
      (List.range (df.length / m + (if df.length % m = 0 then 0 else 1))).map
        (fun i => (df.drop (i * m)).take m) := by
  simp only [split_and_save, if_neg (Nat.not_le.mpr h)]
  exact List.map_congr_left (fun i _ => split_slice_eq df m i)

theorem num_parts_eq_ceil (T m : Nat) (hm : 1 ≤ m) :
    T / m + (if T % m = 0 then 0 else 1) = (T + m - 1) / m := by
  obtain ⟨q, hq⟩ : ∃ q, T / m = q := ⟨_, rfl⟩
  obtain ⟨r, hrr⟩ : ∃ r, T % m = r := ⟨_, rfl⟩
  have hqr : m * q + r = T := by rw [← hq, ← hrr]; exact Nat.div_add_mod T m
  have hr : r < m := by rw [← hrr]; exact Nat.mod_lt T (by omega)
  obtain ⟨A, hA⟩ : ∃ A, m * q = A := ⟨_, rfl⟩
  have hA1 : m * (q + 1) = A + m := by rw [← hA]; ring
  rw [hA] at hqr
  rw [hq, hrr]
  by_cases h0 : r = 0
  · rw [if_pos h0]
    have hT : T + m - 1 = m * q + (m - 1) := by rw [hA]; omega
    rw [hT, Nat.mul_add_div (by omega : 0 < m),
      Nat.div_eq_of_lt (by omega : m - 1 < m)]
  · rw [if_neg h0]
    have hT : T + m - 1 = m * (q + 1) + (r - 1) := by rw [hA1]; omega
    rw [hT, Nat.mul_add_div (by omega : 0 < m),
      Nat.div_eq_of_lt (by omega : r - 1 < m)]

theorem le_num_parts_mul (T m : Nat) (hm : 1 ≤ m) :
    T ≤ (T / m + (if T % m = 0 then 0 else 1)) * m := by
  obtain ⟨q, hq⟩ : ∃ q, T / m = q := ⟨_, rfl⟩
  obtain ⟨r, hrr⟩ : ∃ r, T % m = r := ⟨_, rfl⟩
  have hqr : m * q + r = T := by rw [← hq, ← hrr]; exact Nat.div_add_mod T m
  have hr : r < m := by rw [← hrr]; exact Nat.mod_lt T (by omega)
  have hcomm : q * m = m * q := Nat.mul_comm q m
  rw [hq, hrr]
  by_cases h0 : r = 0
  · rw [if_pos h0]
    rw [Nat.add_zero, hcomm]
    omega
  · rw [if_neg h0]
    rw [Nat.succ_mul, hcomm]
    omega

theorem join_chunks {α : Type u} (m : Nat) (hm : 1 ≤ m) :
    ∀ (k : Nat) (L : List α), L.length ≤ k * m →
      ((List.range k).map (fun i => (L.drop (i * m)).take m)).flatten = L := by
  intro k
  induction k with
  | zero =>
    intro L hL
    have hnil : L = [] := List.eq_nil_of_length_eq_zero (by omega)
    simp [hnil]
  | succ k ih =>
    intro L hL
    rw [List.range_succ_eq_map, List.map_cons, List.map_map, List.flatten_cons]
    have hmap : (List.range k).map ((fun i => (L.drop (i * m)).take m) ∘ Nat.succ) =
        (List.range k).map (fun i => ((L.drop m).drop (i * m)).take m) := by
      refine List.map_congr_left (fun i _ => ?_)
      simp only [Function.comp]
      rw [List.drop_drop]
      have : i.succ * m = m + i * m := by rw [Nat.succ_mul]; omega
      rw [this]
    rw [hmap]
    have hlen : (L.drop m).length ≤ k * m := by
      rw [List.length_drop]
      have : (k + 1) * m = k * m + m := Nat.succ_mul k m
      omega
    rw [ih (L.drop m) hlen]
    simp [List.take_append_drop]

theorem split_length_eq {α : Type u} (df : List α) (m : Nat) (h : m < df.length) :
    (split_and_save df m).length =
      df.length / m + (if df.length % m = 0 then 0 else 1) := by
  rw [split_and_save_of_lt df m h]
  simp

theorem split_getD {α : Type u} (df : List α) (m i : Nat) (hm : 1 ≤ m)
    (hi : i < (split_and_save df m).length) :
    (split_and_save df m).getD i [] = (df.drop (i * m)).take m := by
  by_cases h : df.length ≤ m
  · rw [split_and_save_of_le df m h] at hi ⊢
    simp only [List.length_cons, List.length_nil] at hi
    have hi0 : i = 0 := by omega
    subst hi0
    simp only [List.getD_eq_getElem?_getD]
    simp [List.take_of_length_le (by omega : df.length ≤ m)]
  · push_neg at h
    rw [split_and_save_of_lt df m h] at hi ⊢
    rw [List.length_map, List.length_range] at hi
    rw [List.getD_eq_getElem?_getD, List.getElem?_map, List.getElem?_range hi]
    rfl

theorem split_part_le {α : Type u} (df : List α) (m : Nat) (hm : 1 ≤ m) :
    ∀ part ∈ split_and_save df m, part.length ≤ m := by
  intro part hpart
  by_cases h : df.length ≤ m
  · rw [split_and_save_of_le df m h] at hpart
    rcases List.mem_singleton.mp hpart with rfl
    exact h
  · push_neg at h
    rw [split_and_save_of_lt df m h] at hpart
    obtain ⟨i, _, rfl⟩ := List.mem_map.mp hpart
    rw [List.length_take]
    exact Nat.min_le_left _ _

theorem split_nonlast_len {α : Type u} (df : List α) (m i : Nat) (hm : 1 ≤ m)
    (hi : i + 1 < (split_and_save df m).length) :
    ((split_and_save df m).getD i []).length = m := by
  by_cases h : df.length ≤ m
  · rw [split_and_save_of_le df m h] at hi
    simp at hi
  · push_neg at h
    rw [split_getD df m i hm (by omega)]
    rw [split_length_eq df m h] at hi
    obtain ⟨q, hq⟩ : ∃ q, df.length / m = q := ⟨_, rfl⟩
    obtain ⟨r, hrr⟩ : ∃ r, df.length % m = r := ⟨_, rfl⟩
    have hqr : m * q + r = df.length := by
      rw [← hq, ← hrr]; exact Nat.div_add_mod df.length m
    have hr : r < m := by rw [← hrr]; exact Nat.mod_lt df.length (by omega)
    rw [hq, hrr] at hi
    have hiq : i + 1 ≤ q := by by_cases h0 : r = 0 <;> simp [h0] at hi <;> omega
    have hstep : (i + 1) * m ≤ q * m := Nat.mul_le_mul_right m hiq
    have hcomm : q * m = m * q := Nat.mul_comm q m
    have hbound : i * m + m ≤ df.length := by
      have : (i + 1) * m = i * m + m := Nat.succ_mul i m
      omega
    rw [List.length_take, List.length_drop]
    omega

/-! ## Lemmas about the sort order -/

theorem dLT_irrefl (x : Option String) : dLT x x = false := by
  cases x <;> simp [dLT]

theorem dLT_trans : ∀ {x y z : Option String},
    dLT x y = true → dLT y z = true → dLT x z = true
  | some a, some b, some c, h1, h2 => by
    simp only [dLT, decide_eq_true_eq] at h1 h2 ⊢
    exact lt_trans h1 h2
  | some _, some _, none, _, _ => rfl
  | some _, none, _, _, h2 => by simp [dLT] at h2
  | none, _, _, h1, _ => by simp [dLT] at h1

theorem dLT_connex : ∀ {x y : Option String},
    dLT x y = false → dLT y x = false → x = y
  | none, none, _, _ => rfl
  | none, some _, _, h2 => by simp [dLT] at h2
  | some _, none, h1, _ => by simp [dLT] at h1
  | some a, some b, h1, h2 => by
    simp only [dLT, decide_eq_false_iff_not, not_lt] at h1 h2
    exact congrArg some (le_antisymm h2 h1)

theorem dLT_iff_DsLT : ∀ (x y : Option String), dLT x y = true ↔ DsLT x y
  | none, none => by simp [dLT, DsLT]
  | none, some _ => by simp [dLT, DsLT]
  | some _, none => by simp [dLT, DsLT]
  | some _, some _ => by simp [dLT, DsLT]

theorem DsLT_irrefl (x : Option String) : ¬ DsLT x x := by
  cases x <;> simp [DsLT]

theorem rowLE_total (a b : CleanedRow) : rowLE a b = true ∨ rowLE b a = true := by
  by_cases hd : a.date = b.date
  · rw [rowLE, if_pos hd, rowLE, if_pos hd.symm]
    by_cases hs : a.state = b.state
    · rw [if_pos hs, if_pos hs.symm]
      rcases le_total a.district b.district with h | h
      · exact Or.inl (decide_eq_true h)
      · exact Or.inr (decide_eq_true h)
    · rw [if_neg hs, if_neg (fun hh => hs hh.symm)]
      rcases lt_or_gt_of_ne hs with h | h
      · exact Or.inl (decide_eq_true h)
      · exact Or.inr (decide_eq_true h)
  · rw [rowLE, if_neg hd, rowLE, if_neg (fun hh => hd hh.symm)]
    cases hb1 : dLT a.date b.date
    · cases hb2 : dLT b.date a.date
      · exact absurd (dLT_connex hb1 hb2) hd
      · exact Or.inr rfl
    · exact Or.inl rfl

theorem rowLE_total_bool (a b : CleanedRow) : rowLE a b || rowLE b a := by
  rcases rowLE_total a b with h | h <;> simp [h]

theorem rowLE_trans (a b c : CleanedRow) (h1 : rowLE a b = true) (h2 : rowLE b c = true) :
    rowLE a c = true := by
  simp only [rowLE] at h1 h2 ⊢
  by_cases hab : a.date = b.date <;> by_cases hbc : b.date = c.date
  · have hac : a.date = c.date := hab.trans hbc
    rw [if_pos hab] at h1; rw [if_pos hbc] at h2; rw [if_pos hac]
    by_cases sab : a.state = b.state <;> by_cases sbc : b.state = c.state
    · have sac : a.state = c.state := sab.trans sbc
      rw [if_pos sab] at h1; rw [if_pos sbc] at h2; rw [if_pos sac]
      rw [decide_eq_true_eq] at h1 h2 ⊢
      exact le_trans h1 h2
    · have sac : ¬ a.state = c.state := by rw [sab]; exact sbc
      rw [if_pos sab] at h1; rw [if_neg sbc] at h2; rw [if_neg sac, sab]
      exact h2
    · have sac : ¬ a.state = c.state := by rw [← sbc]; exact sab
      rw [if_neg sab] at h1; rw [if_pos sbc] at h2; rw [if_neg sac, ← sbc]
      exact h1
    · rw [if_neg sab] at h1; rw [if_neg sbc] at h2
      rw [decide_eq_true_eq] at h1 h2
      have hlt : a.state < c.state := lt_trans h1 h2
      rw [if_neg (ne_of_lt hlt), decide_eq_true_eq]
      exact hlt
  · have hac : ¬ a.date = c.date := by rw [hab]; exact hbc
    rw [if_pos hab] at h1; rw [if_neg hbc] at h2; rw [if_neg hac, hab]
    exact h2
  · have hac : ¬ a.date = c.date := by rw [← hbc]; exact hab
    rw [if_neg hab] at h1; rw [if_pos hbc] at h2; rw [if_neg hac, ← hbc]
    exact h1
  · rw [if_neg hab] at h1; rw [if_neg hbc] at h2
    have hlt := dLT_trans h1 h2
    have hac : ¬ a.date = c.date := fun he => by
      rw [he, dLT_irrefl] at hlt
      exact Bool.false_ne_true hlt
    rw [if_neg hac]
    exact hlt

theorem rowLE_of_key_eq {a b : CleanedRow} (hd : a.date = b.date) (hs : a.state = b.state)
    (hdist : a.district = b.district) : rowLE a b = true := by
  simp [rowLE, hd, hs, hdist]

theorem rowLE_iff_keyLE (a b : CleanedRow) : rowLE a b = true ↔ keyLE a b := by
  by_cases hd : a.date = b.date
  · have hds : ¬ DsLT a.date b.date := by rw [hd]; exact DsLT_irrefl b.date
    by_cases hs : a.state = b.state
    · rw [rowLE, if_pos hd, if_pos hs, keyLE]
      constructor
      · intro h
        exact Or.inr ⟨hd, Or.inr ⟨hs, of_decide_eq_true h⟩⟩
      · rintro (h | ⟨-, h | ⟨-, h⟩⟩)
        · exact absurd h hds
        · rw [hs] at h
          exact absurd h (lt_irrefl _)
        · exact decide_eq_true h
    · rw [rowLE, if_pos hd, if_neg hs, keyLE]
      constructor
      · intro h
        exact Or.inr ⟨hd, Or.inl (of_decide_eq_true h)⟩
      · rintro (h | ⟨-, h | ⟨hst, -⟩⟩)
        · exact absurd h hds
        · exact decide_eq_true h
        · exact absurd hst hs
  · rw [rowLE, if_neg hd, keyLE]
    constructor
    · intro h
      exact Or.inl ((dLT_iff_DsLT _ _).mp h)
    · rintro (h | ⟨he, -⟩)
      · exact (dLT_iff_DsLT _ _).mpr h
      · exact absurd he hd

/-! ## Lemmas about the sort stage -/

theorem sorted_sortStage (l : List CleanedRow) :
    (sortStage l).Pairwise (fun a b => rowLE a b = true) :=
  List.sorted_mergeSort (fun a b c => rowLE_trans a b c) rowLE_total_bool l

theorem sortStage_perm (l : List CleanedRow) : (sortStage l).Perm l :=
  List.mergeSort_perm l rowLE

theorem filter_key_sortStage (l : List CleanedRow) (k : Option String × String × String) :
    (sortStage l).filter (fun r => decide ((r.date, r.state, r.district) = k)) =
      l.filter (fun r => decide ((r.date, r.state, r.district) = k)) := by
  have hpair : (l.filter (fun r => decide ((r.date, r.state, r.district) = k))).Pairwise
      (fun a b => rowLE a b = true) := by
    refine List.pairwise_of_forall_mem_list (fun x hx y hy => ?_)
    have hx2 : (x.date, x.state, x.district) = k := by
      have := (List.mem_filter.mp hx).2
      simpa using this
    have hy2 : (y.date, y.state, y.district) = k := by
      have := (List.mem_filter.mp hy).2
      simpa using this
    have hxy := hx2.trans hy2.symm
    exact rowLE_of_key_eq (congrArg Prod.fst hxy)
      (congrArg (fun t => t.2.1) hxy) (congrArg (fun t => t.2.2) hxy)
  have hsub : (l.filter (fun r => decide ((r.date, r.state, r.district) = k))).Sublist
      (sortStage l) :=
    List.sublist_mergeSort (fun a b c => rowLE_trans a b c) rowLE_total_bool hpair
      (List.filter_sublist l)
  have heq : (l.filter (fun r => decide ((r.date, r.state, r.district) = k))).filter
      (fun r => decide ((r.date, r.state, r.district) = k)) =
      l.filter (fun r => decide ((r.date, r.state, r.district) = k)) :=
    List.filter_eq_self.mpr (fun a ha => (List.mem_filter.mp ha).2)
  have hsub2 := hsub.filter (fun r => decide ((r.date, r.state, r.district) = k))
  rw [heq] at hsub2
  have hperm := (sortStage_perm l).filter (fun r => decide ((r.date, r.state, r.district) = k))
  exact (hsub2.eq_of_length hperm.length_eq.symm).symm

theorem sortStage_none_last (l : List CleanedRow) :
    (sortStage l).Pairwise (fun a b => a.date = none → b.date = none) := by
  refine (sorted_sortStage l).imp ?_
  intro a b hab
  intro ha
  by_cases hd : a.date = b.date
  · rw [← hd]; exact ha
  · simp only [rowLE, if_neg hd] at hab
    rw [ha] at hab
    simp [dLT] at hab

/-! ## Lemmas about zero-padding and the state table -/

theorem padLeftZeros_length (w : Nat) (cs : List Char) :
    (padLeftZeros w cs).length = max w cs.length := by
  simp only [padLeftZeros, List.length_append, List.length_replicate]
  omega

theorem pyZfill_length_of_le (s : String) (h : s.length ≤ 6) :
    (pyZfill 6 s).length = 6 := by
  have hd : s.data.length ≤ 6 := h
  rcases hs : s.data with _ | ⟨c, rest⟩
  · simp only [pyZfill, hs]
    show (padLeftZeros 6 []).length = 6
    rw [padLeftZeros_length]
    simp
  · rw [hs] at hd
    simp only [List.length_cons] at hd
    simp only [pyZfill, hs]
    by_cases hc : c = '-' ∨ c = '+'
    · rw [if_pos hc]
      show (c :: padLeftZeros (6 - 1) rest).length = 6
      rw [List.length_cons, padLeftZeros_length]
      omega
    · rw [if_neg hc]
      show (padLeftZeros 6 (c :: rest)).length = 6
      rw [padLeftZeros_length, List.length_cons]
      omega

theorem padLeftZeros_of_le (w : Nat) (cs : List Char) (h : w ≤ cs.length) :
    padLeftZeros w cs = cs := by
  simp [padLeftZeros, Nat.sub_eq_zero_of_le h]

theorem pyZfill_of_gt (s : String) (h : 6 < s.length) : pyZfill 6 s = s := by
  have hd : 6 < s.data.length := h
  rcases hs : s.data with _ | ⟨c, rest⟩
  · rw [hs] at hd; simp at hd
  · rw [hs] at hd
    simp only [List.length_cons] at hd
    simp only [pyZfill, hs]
    by_cases hc : c = '-' ∨ c = '+'
    · rw [if_pos hc, padLeftZeros_of_le 5 rest (by omega)]
      rw [← hs]
    · rw [if_neg hc, padLeftZeros_of_le 6 (c :: rest) (by simp; omega)]
      rw [← hs]

theorem mapping_values_official : ∀ p ∈ STATE_MAPPING, p.2 ∈ OFFICIAL_STATES := by
  decide

theorem lookup_mem_values {l : List (String × String)} {k v : String} :
    l.lookup k = some v → ∃ p, p ∈ l ∧ p.2 = v := by
  induction l with
  | nil => intro h; simp at h
  | cons p rest ih =>
    intro h
    rcases p with ⟨a, b⟩
    rw [List.lookup_cons] at h
    cases hk : k == a
    · rw [hk] at h
      obtain ⟨q, hq, hv⟩ := ih h
      exact ⟨q, List.mem_cons_of_mem _ hq, hv⟩
    · rw [hk] at h
      exact ⟨(a, b), List.mem_cons_self _ _, Option.some.inj h⟩

/-! ## Claim theorems -/

/-- C1: `standardize_state` is total; `none` (missing) maps to `"INVALID"`;
with `k` the lower-cased stripped input, members of the exclusion set and
keys of neither table map to `"INVALID"`, and keys of the mapping table map
to `STATE_MAPPING[k]`, depending only on `k` (hence independent of casing
and surrounding whitespace); the result is always `"INVALID"` or one of the
36 distinct official names. -/
theorem standardize_state_spec (v : Option String) :
    (v = none → standardize_state v = "INVALID") ∧
    (∀ s, v = some s →
      (pyLower (pyStrip s) ∈ INVALID_STATES → standardize_state v = "INVALID") ∧
      (pyLower (pyStrip s) ∉ INVALID_STATES →
        STATE_MAPPING.lookup (pyLower (pyStrip s)) = none →
        standardize_state v = "INVALID") ∧
      (∀ official, pyLower (pyStrip s) ∉ INVALID_STATES →
        STATE_MAPPING.lookup (pyLower (pyStrip s)) = some official →
        standardize_state v = official) ∧
      (∀ t, pyLower (pyStrip t) = pyLower (pyStrip s) →
        standardize_state (some t) = standardize_state (some s))) ∧
    (standardize_state v = "INVALID" ∨ standardize_state v ∈ OFFICIAL_STATES) ∧
    OFFICIAL_STATES.length = 36 ∧ OFFICIAL_STATES.Nodup := by
  refine ⟨?_, ?_, ?_, by decide, by decide⟩
  · rintro rfl; rfl
  · rintro s rfl
    refine ⟨?_, ?_, ?_, ?_⟩
    · intro hmem
      simp only [standardize_state]
      rw [if_pos hmem]
    · intro hmem hl
      simp only [standardize_state]
      rw [if_neg hmem, hl]
    · intro official hmem hl
      simp only [standardize_state]
      rw [if_neg hmem, hl]
    · intro t ht
      simp only [standardize_state]
      rw [ht]
  · cases v with
    | none => exact Or.inl rfl
    | some s =>
      simp only [standardize_state]
      by_cases hmem : pyLower (pyStrip s) ∈ INVALID_STATES
      · rw [if_pos hmem]; exact Or.inl rfl
      · rw [if_neg hmem]
        rcases hl : STATE_MAPPING.lookup (pyLower (pyStrip s)) with _ | official
        · exact Or.inl rfl
        · obtain ⟨p, hp, hv⟩ := lookup_mem_values hl
          exact Or.inr (hv ▸ mapping_values_official p hp)

/-- Witness for C1: the variant `" West  Bengal "` (mixed case, double
space, surrounding whitespace) canonicalizes to `"West Bengal"`, as does
`"west bengal\x1c"` (trailing file-separator whitespace stripped by
`str.strip()`). -/
theorem standardize_state_spec_witness :
    standardize_state (some " West  Bengal ") = "West Bengal" ∧
    standardize_state (some "west bengal\x1c") = "West Bengal" := by
  constructor
  · have h := (standardize_state_spec (some " West  Bengal ")).2.1 " West  Bengal " rfl
    exact h.2.2.1 "West Bengal" (by decide) (by decide)
  · have h := (standardize_state_spec (some "west bengal\x1c")).2.1 "west bengal\x1c" rfl
    exact h.2.2.1 "West Bengal" (by decide) (by decide)

/-- C2: for every table and positive row cap, concatenating the shards of
`split_and_save` in part order reproduces the table exactly. -/
theorem split_and_save_roundtrip (df : List CleanedRow) (m : Nat) (hm : 1 ≤ m) :
    (split_and_save df m).flatten = df := by
  by_cases h : df.length ≤ m
  · rw [split_and_save_of_le df m h]
    simp
  · push_neg at h
    rw [split_and_save_of_lt df m h]
    exact join_chunks m hm _ df (le_num_parts_mul df.length m hm)

/-- Witness for C2 on a concrete 3-row table with cap 2. -/
theorem split_and_save_roundtrip_witness :
    (1 : Nat) ≤ 2 ∧
    (split_and_save
      [(⟨some "2025-01-01", "Assam", "Barpeta", "781301", [], none⟩ : CleanedRow),
       ⟨some "2025-01-02", "Bihar", "Patna", "800001", [], none⟩,
       ⟨none, "Goa", "Panaji", "403001", [], none⟩] 2).flatten =
      [(⟨some "2025-01-01", "Assam", "Barpeta", "781301", [], none⟩ : CleanedRow),
       ⟨some "2025-01-02", "Bihar", "Patna", "800001", [], none⟩,
       ⟨none, "Goa", "Panaji", "403001", [], none⟩] :=
  ⟨by decide, split_and_save_roundtrip _ 2 (by decide)⟩

/-- C3: `split_and_save` emits one shard (`part1`) when the table fits the
cap, otherwise `ceil(totalRows / maxRowsPerShard)` contiguous
order-preserving slices of at most `maxRowsPerShard` rows with every shard
except the last having exactly `maxRowsPerShard` rows; a table of exactly
`maxRowsPerShard` rows gives one shard and `maxRowsPerShard + 1` rows give
two shards of sizes `maxRowsPerShard` and 1. -/
theorem split_and_save_shape (df : List CleanedRow) (m : Nat) (hm : 1 ≤ m) :
    (df.length ≤ m → split_and_save df m = [df]) ∧
    (m < df.length →
      (split_and_save df m).length = (df.length + m - 1) / m) ∧
    (∀ i, i < (split_and_save df m).length →
      (split_and_save df m).getD i [] = (df.drop (i * m)).take m) ∧
    (∀ part ∈ split_and_save df m, part.length ≤ m) ∧
    (∀ i, i + 1 < (split_and_save df m).length →
      ((split_and_save df m).getD i []).length = m) ∧
    (df.length = m → split_and_save df m = [df]) ∧
    (df.length = m + 1 →
      (split_and_save df m).map (fun part => part.length) = [m, 1]) := by
  refine ⟨split_and_save_of_le df m, ?_, fun i hi => split_getD df m i hm hi,
    split_part_le df m hm, fun i hi => split_nonlast_len df m i hm hi,
    fun h => split_and_save_of_le df m (le_of_eq h), ?_⟩
  · intro h
    rw [split_length_eq df m h, num_parts_eq_ceil df.length m hm]
  · intro h
    have hlt : m < df.length := by omega
    rw [split_and_save_of_lt df m hlt]
    have h2 : df.length / m + (if df.length % m = 0 then 0 else 1) = 2 := by
      rw [num_parts_eq_ceil df.length m hm, h]
      have he : m + 1 + m - 1 = 2 * m := by omega
      rw [he, Nat.mul_div_cancel 2 (by omega : 0 < m)]
    rw [h2]
    have e0 : min m (m + 1) = m := by omega
    have e1 : min m (m + 1 - m) = 1 := by omega
    simp [List.range_succ, List.length_take, List.length_drop, h, e0, e1]
    omega

/-- Witness for C3: three rows with cap 2 give shards of sizes 2 and 1. -/
theorem split_and_save_shape_witness :
    (split_and_save
      [(⟨some "2025-01-01", "Assam", "Barpeta", "781301", [], none⟩ : CleanedRow),
       ⟨some "2025-01-02", "Bihar", "Patna", "800001", [], none⟩,
       ⟨none, "Goa", "Panaji", "403001", [], none⟩] 2).map (fun part => part.length) =
      [2, 1] :=
  (split_and_save_shape _ 2 (by decide)).2.2.2.2.2.2 (by decide)

/-- C4: the sort stage orders the cleaned records by the composite key
(date ascending, state ascending, district ascending, lexicographic string
comparison — `keyLE`), is a permutation of its input, and is stable: the
records holding any fixed composite key appear in the output in exactly
their input order. -/
theorem sortStage_spec (l : List CleanedRow) :
    (sortStage l).Pairwise keyLE ∧
    (sortStage l).Perm l ∧
    ∀ k : Option String × String × String,
      (sortStage l).filter (fun r => decide ((r.date, r.state, r.district) = k)) =
        l.filter (fun r => decide ((r.date, r.state, r.district) = k)) :=
  ⟨(sorted_sortStage l).imp (fun {a b} h => (rowLE_iff_keyLE a b).mp h),
   sortStage_perm l, filter_key_sortStage l⟩

/-- C5: deduplication keeps exactly the first occurrence of each distinct
raw row, in input order (`dropDuplicates_cons_eq` recurrence plus sublist /
nodup / membership), it is idempotent, and in the pipeline it runs on raw
rows before any column normalization and before `state_original` is added
(`cleanRows` factors through `dropDuplicates` first). -/
theorem dropDuplicates_spec (l : List RawRow) :
    dropDuplicates (dropDuplicates l) = dropDuplicates l ∧
    (dropDuplicates l).Sublist l ∧
    (dropDuplicates l).Nodup ∧
    (∀ r, r ∈ dropDuplicates l ↔ r ∈ l) ∧
    (∀ (r : RawRow) (rest : List RawRow),
      dropDuplicates (r :: rest) =
        r :: dropDuplicates (rest.filter (fun x => decide ¬(x = r)))) ∧
    (∀ raws : List RawRow,
      cleanRows raws = sortStage ((dropDuplicates raws).map normalizeRow)) :=
  ⟨dropDuplicates_idem l, dropDuplicates_sublist l, dropDuplicates_nodup l,
   fun r => mem_dropDuplicates r l, dropDuplicates_cons_eq, fun _ => rfl⟩

/-- Witness for C5: idempotence on a concrete duplicated list. -/
theorem dropDuplicates_spec_witness :
    dropDuplicates (dropDuplicates wbExample) = dropDuplicates wbExample :=
  (dropDuplicates_spec wbExample).1

/-- C6: every pipeline output row comes from a raw input row whose raw
state is kept unchanged in `state_original`; `state_original` is the last
output column; and on the three-row `"West  Bengal"` example the output has
exactly 2 rows, each with state `"West Bengal"` and `state_original`
`"West  Bengal"`. -/
theorem state_original_spec :
    (∀ (raws : List RawRow) (c : CleanedRow), c ∈ cleanRows raws →
      ∃ r, r ∈ raws ∧ c = normalizeRow r ∧ c.state_original = r.state) ∧
    (∀ c : CleanedRow,
      (CleanedRow.columns c).getLast? = some (optCell c.state_original)) ∧
    ((cleanRows wbExample).length = 2 ∧
      ∀ c ∈ cleanRows wbExample,
        c.state = "West Bengal" ∧ c.state_original = some "West  Bengal") := by
  refine ⟨?_, ?_, ?_, ?_⟩
  · intro raws c hc
    have hc2 : c ∈ normStage (dropDuplicates raws) := List.mem_mergeSort.mp hc
    obtain ⟨r, hr, rfl⟩ := List.mem_map.mp hc2
    exact ⟨r, (mem_dropDuplicates r raws).mp hr, rfl, rfl⟩
  · intro c
    show ([c.date.getD "", c.state, c.district, c.pincode] ++
      (c.extra ++ [optCell c.state_original])).getLast? = some (optCell c.state_original)
    rw [← List.append_assoc]
    exact List.getLast?_concat _
  · show (sortStage (normStage (dropDuplicates wbExample))).length = 2
    rw [sortStage, List.length_mergeSort, normStage, List.length_map]
    rfl
  · intro c hc
    have hc2 : c ∈ normStage (dropDuplicates wbExample) := List.mem_mergeSort.mp hc
    have hd : dropDuplicates wbExample =
        [⟨"01-01-2020", some "West  Bengal", "Kolkata", "700001", []⟩,
         ⟨"01-01-2020", some "West  Bengal", "Howrah", "711101", []⟩] := rfl
    rw [normStage, hd] at hc2
    simp only [List.map_cons, List.map_nil, List.mem_cons, List.not_mem_nil,
      or_false] at hc2
    rcases hc2 with rfl | rfl
    · exact ⟨rfl, rfl⟩
    · exact ⟨rfl, rfl⟩

/-- Witness for C6: the first clause applied to a concrete member of the
pipeline output of the West Bengal example. -/
theorem state_original_spec_witness :
    ∃ r, r ∈ wbExample ∧
      normalizeRow ⟨"01-01-2020", some "West  Bengal", "Kolkata", "700001", []⟩ =
        normalizeRow r ∧
      (normalizeRow
        ⟨"01-01-2020", some "West  Bengal", "Kolkata", "700001", []⟩).state_original =
        r.state := by
  refine state_original_spec.1 wbExample _ ?_
  show _ ∈ sortStage (normStage (dropDuplicates wbExample))
  refine List.mem_mergeSort.mpr ?_
  show _ ∈ normStage (dropDuplicates wbExample)
  have hd : dropDuplicates wbExample =
      [⟨"01-01-2020", some "West  Bengal", "Kolkata", "700001", []⟩,
       ⟨"01-01-2020", some "West  Bengal", "Howrah", "711101", []⟩] := rfl
  rw [normStage, hd]
  exact List.mem_map_of_mem normalizeRow (List.mem_cons_self _ _)

/-- C7: the date stage maps rows in place (no row is dropped), replaces
exactly the date field, writes the `none` sentinel instead of raising when
the day-month-year parse fails, and rewrites parseable dates to the
`YYYY-MM-DD` rendering `formatDate`. -/
theorem date_normalization_spec (l : List RawRow) (r : RawRow) :
    (normStage l).length = l.length ∧
    normStage l = l.map normalizeRow ∧
    (parseDate r.date = none → (normalizeRow r).date = none) ∧
    (∀ y m d, parseDate r.date = some (y, m, d) →
      (normalizeRow r).date = some (formatDate y m d)) ∧
    (∀ s : String,
      (normalizeRow { r with date := s }).state = (normalizeRow r).state ∧
      (normalizeRow { r with date := s }).district = (normalizeRow r).district ∧
      (normalizeRow { r with date := s }).pincode = (normalizeRow r).pincode ∧
      (normalizeRow { r with date := s }).extra = (normalizeRow r).extra ∧
      (normalizeRow { r with date := s }).state_original =
        (normalizeRow r).state_original) := by
  refine ⟨by simp [normStage], rfl, ?_, ?_, fun s => ⟨rfl, rfl, rfl, rfl, rfl⟩⟩
  · intro h
    simp [normalizeRow, h]
  · intro y m d h
    simp [normalizeRow, h]

/-- Witness for C7: an unparseable date becomes the sentinel, a parseable
one is rewritten, and a space-padded single-digit day (`%d` also matches
`" 1"`) parses, at concrete rows. -/
theorem date_normalization_spec_witness :
    (normalizeRow ⟨"13/05/2020", some "Assam", "Barpeta", "781301", []⟩).date = none ∧
    (normalizeRow ⟨"13-05-2020", some "Assam", "Barpeta", "781301", []⟩).date =
      some "2020-05-13" ∧
    (normalizeRow ⟨" 1-05-2020", some "Assam", "Barpeta", "781301", []⟩).date =
      some "2020-05-01" := by
  refine ⟨?_, ?_, ?_⟩
  · exact (date_normalization_spec []
      ⟨"13/05/2020", some "Assam", "Barpeta", "781301", []⟩).2.2.1 (by decide)
  · exact (date_normalization_spec []
      ⟨"13-05-2020", some "Assam", "Barpeta", "781301", []⟩).2.2.2.1 2020 5 13 (by decide)
  · exact (date_normalization_spec []
      ⟨" 1-05-2020", some "Assam", "Barpeta", "781301", []⟩).2.2.2.1 2020 5 1 (by decide)

/-- C8: a category with zero input CSV files makes `clean_dataset` fail
with the propagated `pd.concat` error and produce no output shards. -/
theorem clean_dataset_empty_spec (files : List (List RawRow)) (h : files = []) :
    clean_dataset files = Except.error "No objects to concatenate" ∧
    ∀ out, clean_dataset files ≠ Except.ok out := by
  subst h
  exact ⟨rfl, fun out hk => Except.noConfusion hk⟩

/-- Witness for C8 at the empty file list. -/
theorem clean_dataset_empty_spec_witness :
    clean_dataset ([] : List (List RawRow)) = Except.error "No objects to concatenate" :=
  (clean_dataset_empty_spec [] rfl).1

/-- C9: pincode padding treats the field as text and left-pads with zeros
to exactly 6 characters; values of length at most 6 become exactly 6
characters, values longer than 6 are left unchanged (never truncated);
`"12345"` becomes `"012345"` and `"600001"` is unchanged. -/
theorem pincode_zfill_spec (s : String) :
    (s.length ≤ 6 → (pyZfill 6 s).length = 6) ∧
    (6 < s.length → pyZfill 6 s = s) ∧
    (∀ r : RawRow, (normalizeRow r).pincode = pyZfill 6 r.pincode) ∧
    pyZfill 6 "12345" = "012345" ∧ pyZfill 6 "600001" = "600001" :=
  ⟨pyZfill_length_of_le s, pyZfill_of_gt s, fun _ => rfl, rfl, rfl⟩

/-- Witness for C9 at concrete pincodes of length 5 and 7. -/
theorem pincode_zfill_spec_witness :
    (pyZfill 6 "12345").length = 6 ∧ pyZfill 6 "1234567" = "1234567" :=
  ⟨(pincode_zfill_spec "12345").1 (by decide),
   (pincode_zfill_spec "1234567").2.1 (by decide)⟩

/-- C10: in the sorted output every row whose date is the parse-failure
sentinel (`none`, i.e. `NaT`, placed last by `na_position="last"`) comes
after every row with a valid date; `sortStage` is a pure function, so the
placement is identical on every run. -/
theorem sortStage_sentinel_last (l : List CleanedRow) :
    (sortStage l).Pairwise (fun a b => a.date = none → b.date = none) :=
  sortStage_none_last l

end DataCleaning
